import Mathlib

/-!
# Verification of the pdfrename scripts

Shallow embedding of the two Python scripts `rename_pdfs.py` and
`renamepdf.py`, covering the filename sanitizer, the validity check, the
name-derivation strategies (regex pattern heuristics, last non-empty line,
external-service title), the collision-resolution loop, and the two
folder-renaming drivers.  External effects (PDF text extraction, the
completion service, rename failures) are modelled as oracle parameters.
-/

namespace PdfRename

/-! ## Character classes -/

/-- Whitespace characters recognised by Python's `str.strip()` and by the
regex class `\s` (the two sets coincide in CPython: the characters with
`str.isspace()` true). -/
def pyIsSpace (c : Char) : Bool :=
  c == ' ' || c == '\t' || c == '\n' || c == '\r' || c == '\x0b' ||
  c == '\x0c' || c == '\x1c' || c == '\x1d' || c == '\x1e' || c == '\x1f' ||
  c == '\x85' || c == '\xa0' || c == '\u1680' ||
  (('\u2000' ≤ c) && (c ≤ '\u200a')) || c == '\u2028' || c == '\u2029' ||
  c == '\u202f' || c == '\u205f' || c == '\u3000'

/-- The characters removed by `sanitize_filename`:
the regex class `[\\/:*?"<>|]`. -/
def isInvalidFileChar (c : Char) : Bool :=
  c == '\\' || c == '/' || c == ':' || c == '*' || c == '?' ||
  c == '"' || c == '<' || c == '>' || c == '|'

/-- The strip set of `sanitized.strip(' _')`. -/
def isStripSet (c : Char) : Bool :=
  c == ' ' || c == '_'

def isAsciiDigit (c : Char) : Bool :=
  '0' ≤ c && c ≤ '9'

def isAsciiAlpha (c : Char) : Bool :=
  ('A' ≤ c && c ≤ 'Z') || ('a' ≤ c && c ≤ 'z')

/-- The regex class `[A-Za-z0-9-]` capturing invoice/order identifiers. -/
def isIdentChar (c : Char) : Bool :=
  isAsciiAlpha c || isAsciiDigit c || c == '-'

/-- The regex class `\w` (ASCII), used for word boundaries `\b`. -/
def isWordChar (c : Char) : Bool :=
  isAsciiAlpha c || isAsciiDigit c || c == '_'

/-- The class `[A-Za-z0-9 _]` of `is_valid_filename`. -/
def isValidNameChar (c : Char) : Bool :=
  isAsciiAlpha c || isAsciiDigit c || c == ' ' || c == '_'

/-! ## Python string primitives -/

/-- Drop matching characters from the end:
`(l.reverse.dropWhile p).reverse`. -/
def dropEndWhile (p : Char → Bool) (l : List Char) : List Char :=
  (l.reverse.dropWhile p).reverse

/-- Python `str.strip(chars)`: remove matching characters from both ends. -/
def pyStripChars (p : Char → Bool) (l : List Char) : List Char :=
  dropEndWhile p (l.dropWhile p)

/-- Python `str.strip()` (default whitespace strip). -/
def pyStripWs (l : List Char) : List Char :=
  pyStripChars pyIsSpace l

/-! ## `sanitize_filename`

```python
def sanitize_filename(name):
    sanitized = re.sub(r'[\\/:*?"<>|]', '_', name)
    sanitized = re.sub(r'__+', '_', sanitized)
    sanitized = sanitized.strip(' _')
    if len(sanitized) > 200:
        sanitized = sanitized[:200]
    return sanitized
```
(identical in both scripts). -/

/-- Model of `re.sub(r'[\\/:*?"<>|]', '_', name)`: each invalid character becomes an
underscore. -/
def replaceInvalid (l : List Char) : List Char :=
  l.map (fun c => if isInvalidFileChar c then '_' else c)

/-- Model of `re.sub(r'__+', '_', s)`: every maximal run of underscores is replaced
by a single underscore (runs of length one are unchanged either way).  The
boolean records whether the previous emitted character was an underscore of
a run still being collapsed. -/
def collapseUnd : Bool → List Char → List Char
  | _, [] => []
  | afterUnd, c :: rest =>
    if c == '_' then
      if afterUnd then collapseUnd true rest
      else '_' :: collapseUnd true rest
    else c :: collapseUnd false rest

/-- The first three steps of `sanitize_filename`: character replacement,
underscore collapsing, and the strip — everything before the length cap. -/
def sanitizeStripped (l : List Char) : List Char :=
  pyStripChars isStripSet (collapseUnd false (replaceInvalid l))

def sanitizeList (l : List Char) : List Char :=
  if 200 < (sanitizeStripped l).length then (sanitizeStripped l).take 200
  else sanitizeStripped l

def sanitize_filename (s : String) : String :=
  ⟨sanitizeList s.data⟩

/-- Two consecutive underscores occur somewhere in the list. -/
def hasDoubleUnd : List Char → Bool
  | c :: d :: rest => (c == '_' && d == '_') || hasDoubleUnd (d :: rest)
  | _ => false

/-! ## `is_valid_filename` (renamepdf.py)

```python
def is_valid_filename(name: str) -> bool:
    return bool(re.fullmatch(r"[A-Za-z0-9 _]+", name))
```
A full match of `[A-Za-z0-9 _]+` is exactly: non-empty and every character
in the class. -/

def is_valid_filename (s : String) : Bool :=
  !s.data.isEmpty && s.data.all isValidNameChar

/-! ## Lemmas about the sanitizer -/

theorem head?_dropWhile_false {p : Char → Bool} {l : List Char} {c : Char}
    (h : (l.dropWhile p).head? = some c) : p c = false := by
  induction l with
  | nil => simp at h
  | cons a t ih =>
    rw [List.dropWhile_cons] at h
    split at h
    · exact ih h
    · simp only [List.head?_cons, Option.some.injEq] at h
      subst h
      simp_all

theorem dropEndWhile_append (p : Char → Bool) (l : List Char) :
    dropEndWhile p l ++ (l.reverse.takeWhile p).reverse = l := by
  unfold dropEndWhile
  rw [← List.reverse_append, List.takeWhile_append_dropWhile, List.reverse_reverse]

theorem dropEndWhile_getLast?_false {p : Char → Bool} {l : List Char} {c : Char}
    (h : (dropEndWhile p l).getLast? = some c) : p c = false := by
  unfold dropEndWhile at h
  rw [List.getLast?_reverse] at h
  exact head?_dropWhile_false h

theorem pyStripChars_head?_false {p : Char → Bool} {l : List Char} {c : Char}
    (h : (pyStripChars p l).head? = some c) : p c = false := by
  unfold pyStripChars at h
  apply head?_dropWhile_false (p := p) (l := l)
  have hap := dropEndWhile_append p (l.dropWhile p)
  rcases he : dropEndWhile p (l.dropWhile p) with _ | ⟨a, t⟩
  · rw [he] at h; simp at h
  · rw [he] at h hap
    simp only [List.head?_cons, Option.some.injEq] at h
    subst h
    rw [← hap]
    simp

theorem pyStripChars_getLast?_false {p : Char → Bool} {l : List Char} {c : Char}
    (h : (pyStripChars p l).getLast? = some c) : p c = false :=
  dropEndWhile_getLast?_false h

theorem pyStripChars_subset {p : Char → Bool} {l : List Char} :
    pyStripChars p l ⊆ l := by
  intro c hc
  unfold pyStripChars dropEndWhile at hc
  have h1 : c ∈ (l.dropWhile p).reverse.dropWhile p := (List.mem_reverse).mp hc
  have h2 := (List.dropWhile_sublist (l := (l.dropWhile p).reverse) p).subset h1
  have h3 : c ∈ l.dropWhile p := (List.mem_reverse).mp h2
  exact (List.dropWhile_sublist (l := l) p).subset h3

theorem pyStripChars_length_le (p : Char → Bool) (l : List Char) :
    (pyStripChars p l).length ≤ l.length := by
  unfold pyStripChars dropEndWhile
  calc ((l.dropWhile p).reverse.dropWhile p).reverse.length
      = ((l.dropWhile p).reverse.dropWhile p).length := List.length_reverse _
    _ ≤ (l.dropWhile p).reverse.length := (List.dropWhile_sublist p).length_le
    _ = (l.dropWhile p).length := List.length_reverse _
    _ ≤ l.length := (List.dropWhile_sublist p).length_le

theorem mem_replaceInvalid {l : List Char} {c : Char} (h : c ∈ replaceInvalid l) :
    isInvalidFileChar c = false := by
  unfold replaceInvalid at h
  rcases List.mem_map.mp h with ⟨a, _, ha⟩
  by_cases hi : isInvalidFileChar a = true
  · simp only [hi, if_true] at ha; subst ha; decide
  · simp only [Bool.not_eq_true] at hi
    simp only [hi, Bool.false_eq_true, if_false] at ha
    subst ha; exact hi

theorem mem_collapseUnd {b : Bool} {l : List Char} {c : Char}
    (h : c ∈ collapseUnd b l) : c ∈ l ∨ c = '_' := by
  induction l generalizing b with
  | nil => simp [collapseUnd] at h
  | cons a t ih =>
    unfold collapseUnd at h
    by_cases ha : a = '_'
    · subst ha
      simp only [beq_self_eq_true, if_true] at h
      cases b with
      | true =>
        simp only [if_true] at h
        rcases ih h with h' | h'
        · exact Or.inl (List.mem_cons_of_mem _ h')
        · exact Or.inr h'
      | false =>
        simp only [Bool.false_eq_true, if_false] at h
        rcases List.mem_cons.mp h with h' | h'
        · exact Or.inr h'
        · rcases ih h' with h'' | h''
          · exact Or.inl (List.mem_cons_of_mem _ h'')
          · exact Or.inr h''
    · have hb : (a == '_') = false := by simpa using ha
      simp only [hb, Bool.false_eq_true, if_false] at h
      rcases List.mem_cons.mp h with h' | h'
      · exact Or.inl (h' ▸ List.mem_cons_self a t)
      · rcases ih h' with h'' | h''
        · exact Or.inl (List.mem_cons_of_mem _ h'')
        · exact Or.inr h''

theorem collapseUnd_length_le (b : Bool) (l : List Char) :
    (collapseUnd b l).length ≤ l.length := by
  induction l generalizing b with
  | nil => simp [collapseUnd]
  | cons a t ih =>
    unfold collapseUnd
    by_cases ha : (a == '_') = true
    · simp only [ha, if_true]
      cases b with
      | true => simp only [if_true]; exact Nat.le_succ_of_le (ih true)
      | false =>
        simp only [Bool.false_eq_true, if_false, List.length_cons]
        exact Nat.succ_le_succ (ih true)
    · simp only [Bool.not_eq_true] at ha
      simp only [ha, Bool.false_eq_true, if_false, List.length_cons]
      exact Nat.succ_le_succ (ih false)

theorem collapseUnd_true_head? {l : List Char} {c : Char}
    (h : (collapseUnd true l).head? = some c) : c ≠ '_' := by
  induction l with
  | nil => simp [collapseUnd] at h
  | cons a t ih =>
    unfold collapseUnd at h
    by_cases ha : (a == '_') = true
    · simp only [ha, if_true] at h
      exact ih h
    · simp only [Bool.not_eq_true] at ha
      simp only [ha, Bool.false_eq_true, if_false, List.head?_cons,
        Option.some.injEq] at h
      subst h
      simpa using ha

theorem hasDoubleUnd_cons_cons (c d : Char) (rest : List Char) :
    hasDoubleUnd (c :: d :: rest) =
      ((c == '_' && d == '_') || hasDoubleUnd (d :: rest)) := rfl

theorem hasDoubleUnd_cons_false_iff {c : Char} {l : List Char} :
    hasDoubleUnd (c :: l) = false ↔
      (hasDoubleUnd l = false ∧ ∀ d, l.head? = some d → ¬(c = '_' ∧ d = '_')) := by
  cases l with
  | nil => simp [hasDoubleUnd]
  | cons d t =>
    rw [hasDoubleUnd_cons_cons]
    constructor
    · intro h
      rcases Bool.or_eq_false_iff.mp h with ⟨h1, h2⟩
      refine ⟨h2, ?_⟩
      intro e he hce
      simp only [List.head?_cons, Option.some.injEq] at he
      subst he
      rcases hce with ⟨hc, hd⟩
      subst hc; subst hd
      simp at h1
    · rintro ⟨h1, h2⟩
      apply Bool.or_eq_false_iff.mpr
      refine ⟨?_, h1⟩
      by_cases hc : c = '_'
      · by_cases hd : d = '_'
        · exact absurd ⟨hc, hd⟩ (h2 d (by simp))
        · simp [hd]
      · simp [hc]

theorem collapseUnd_hasDoubleUnd (b : Bool) (l : List Char) :
    hasDoubleUnd (collapseUnd b l) = false := by
  induction l generalizing b with
  | nil => simp [collapseUnd, hasDoubleUnd]
  | cons a t ih =>
    unfold collapseUnd
    by_cases ha : (a == '_') = true
    · simp only [ha, if_true]
      cases b with
      | true => simpa using ih true
      | false =>
        simp only [Bool.false_eq_true, if_false]
        apply hasDoubleUnd_cons_false_iff.mpr
        refine ⟨ih true, ?_⟩
        intro d hd hcd
        exact collapseUnd_true_head? hd hcd.2
    · simp only [Bool.not_eq_true] at ha
      simp only [ha, Bool.false_eq_true, if_false]
      apply hasDoubleUnd_cons_false_iff.mpr
      refine ⟨ih false, ?_⟩
      intro d _ hcd
      exact absurd hcd.1 (by simpa using ha)

theorem hasDoubleUnd_append {l1 l2 : List Char}
    (h : hasDoubleUnd (l1 ++ l2) = false) :
    hasDoubleUnd l1 = false ∧ hasDoubleUnd l2 = false := by
  induction l1 with
  | nil => exact ⟨rfl, by simpa using h⟩
  | cons c t ih =>
    rw [List.cons_append, hasDoubleUnd_cons_false_iff] at h
    rcases h with ⟨h1, h2⟩
    rcases ih h1 with ⟨ht, h2'⟩
    refine ⟨?_, h2'⟩
    apply hasDoubleUnd_cons_false_iff.mpr
    refine ⟨ht, ?_⟩
    intro d hd
    apply h2
    cases t with
    | nil => simp at hd
    | cons e u => simpa using hd

theorem hasDoubleUnd_take {l : List Char} (n : Nat)
    (h : hasDoubleUnd l = false) : hasDoubleUnd (l.take n) = false := by
  have h2 : hasDoubleUnd (l.take n ++ l.drop n) = false := by
    rwa [List.take_append_drop]
  exact (hasDoubleUnd_append h2).1

theorem hasDoubleUnd_pyStripChars {p : Char → Bool} {l : List Char}
    (h : hasDoubleUnd l = false) : hasDoubleUnd (pyStripChars p l) = false := by
  have h1 : hasDoubleUnd (l.dropWhile p) = false := by
    have := List.takeWhile_append_dropWhile (p := p) (l := l)
    exact (hasDoubleUnd_append (by rwa [this])).2
  unfold pyStripChars
  have h2 := dropEndWhile_append p (l.dropWhile p)
  exact (hasDoubleUnd_append (by rwa [h2])).1

/-! ### The four universal guarantees of `sanitize_filename` -/

theorem sanitizeStripped_length_le_self (l : List Char) :
    (sanitizeStripped l).length ≤ l.length := by
  unfold sanitizeStripped
  calc (pyStripChars isStripSet (collapseUnd false (replaceInvalid l))).length
      ≤ (collapseUnd false (replaceInvalid l)).length :=
        pyStripChars_length_le _ _
    _ ≤ (replaceInvalid l).length := collapseUnd_length_le _ _
    _ = l.length := List.length_map _ _

theorem sanitizeList_not_invalid {l : List Char} {c : Char}
    (h : c ∈ sanitizeList l) : isInvalidFileChar c = false := by
  unfold sanitizeList at h
  have hc : c ∈ sanitizeStripped l := by
    split at h
    · exact List.take_subset _ _ h
    · exact h
  unfold sanitizeStripped at hc
  have hc2 : c ∈ collapseUnd false (replaceInvalid l) := pyStripChars_subset hc
  rcases mem_collapseUnd hc2 with h' | h'
  · exact mem_replaceInvalid h'
  · subst h'; decide

theorem sanitizeList_noDD (l : List Char) :
    hasDoubleUnd (sanitizeList l) = false := by
  unfold sanitizeList
  have h0 : hasDoubleUnd (sanitizeStripped l) = false :=
    hasDoubleUnd_pyStripChars (collapseUnd_hasDoubleUnd false (replaceInvalid l))
  split
  · exact hasDoubleUnd_take 200 h0
  · exact h0

theorem sanitizeStripped_head? {l : List Char} {c : Char}
    (h : (sanitizeStripped l).head? = some c) : isStripSet c = false :=
  pyStripChars_head?_false h

theorem sanitizeList_head? {l : List Char} {c : Char}
    (h : (sanitizeList l).head? = some c) : isStripSet c = false := by
  unfold sanitizeList at h
  apply sanitizeStripped_head? (l := l)
  split at h
  · rcases he : sanitizeStripped l with _ | ⟨a, t⟩
    · rw [he] at h; simp at h
    · rw [he] at h
      simp only [List.take_succ_cons, List.head?_cons, Option.some.injEq] at h
      subst h
      simp
  · exact h

theorem sanitizeList_length_le (l : List Char) :
    (sanitizeList l).length ≤ 200 := by
  unfold sanitizeList
  split
  · rename_i h
    rw [List.length_take]
    omega
  · omega

theorem sanitizeList_length_le_self (l : List Char) :
    (sanitizeList l).length ≤ l.length := by
  unfold sanitizeList
  have h1 := sanitizeStripped_length_le_self l
  split
  · rw [List.length_take]; omega
  · exact h1

theorem sanitizeList_getLast? {l : List Char} {c : Char}
    (hlen : l.length ≤ 200) (h : (sanitizeList l).getLast? = some c) :
    isStripSet c = false := by
  unfold sanitizeList at h
  have hno : ¬ 200 < (sanitizeStripped l).length := by
    have h1 := sanitizeStripped_length_le_self l
    omega
  rw [if_neg hno] at h
  exact pyStripChars_getLast?_false h

/-! ### Fixpoint lemmas: a sanitized output is left unchanged by a second
pass (idempotence), provided no truncation happened. -/

theorem replaceInvalid_fix {l : List Char}
    (h : ∀ c ∈ l, isInvalidFileChar c = false) : replaceInvalid l = l := by
  unfold replaceInvalid
  induction l with
  | nil => rfl
  | cons a t ih =>
    rw [List.map_cons]
    have ha : isInvalidFileChar a = false := h a (List.mem_cons_self a t)
    rw [if_neg (by simp [ha])]
    rw [ih (fun c hc => h c (List.mem_cons_of_mem a hc))]

theorem collapseUnd_fix {l : List Char} (h : hasDoubleUnd l = false) :
    collapseUnd false l = l ∧
      ((∀ d, l.head? = some d → d ≠ '_') → collapseUnd true l = l) := by
  induction l with
  | nil => exact ⟨rfl, fun _ => rfl⟩
  | cons a t ih =>
    rcases hasDoubleUnd_cons_false_iff.mp h with ⟨ht, hpair⟩
    rcases ih ht with ⟨ih1, ih2⟩
    by_cases ha : a = '_'
    · subst ha
      have htr : collapseUnd true t = t := by
        apply ih2
        intro d hd hdu
        exact hpair d hd ⟨rfl, hdu⟩
      constructor
      · show collapseUnd false ('_' :: t) = '_' :: t
        unfold collapseUnd
        simp [htr]
      · intro hhead
        exact absurd rfl (hhead '_' (by simp))
    · have hb : (a == '_') = false := by simpa using ha
      constructor
      · show collapseUnd false (a :: t) = a :: t
        unfold collapseUnd
        simp [hb, ih1]
      · intro _
        show collapseUnd true (a :: t) = a :: t
        unfold collapseUnd
        simp [hb, ih1]

theorem dropWhile_fix {p : Char → Bool} {l : List Char}
    (h : ∀ c, l.head? = some c → p c = false) : l.dropWhile p = l := by
  cases l with
  | nil => rfl
  | cons a t =>
    rw [List.dropWhile_cons_of_neg]
    simp [h a rfl]

theorem pyStripChars_fix {p : Char → Bool} {l : List Char}
    (hh : ∀ c, l.head? = some c → p c = false)
    (hl : ∀ c, l.getLast? = some c → p c = false) :
    pyStripChars p l = l := by
  unfold pyStripChars dropEndWhile
  rw [dropWhile_fix hh]
  rw [dropWhile_fix (l := l.reverse) ?_, List.reverse_reverse]
  intro c hc
  rw [List.head?_reverse] at hc
  exact hl c hc

theorem sanitizeList_fix {l : List Char} (hlen : l.length ≤ 200) :
    sanitizeList (sanitizeList l) = sanitizeList l := by
  set t := sanitizeList l with ht
  have hti : ∀ c ∈ t, isInvalidFileChar c = false := fun c hc =>
    sanitizeList_not_invalid hc
  have htd : hasDoubleUnd t = false := sanitizeList_noDD l
  have hth : ∀ c, t.head? = some c → isStripSet c = false := fun c hc =>
    sanitizeList_head? hc
  have htl : ∀ c, t.getLast? = some c → isStripSet c = false := fun c hc =>
    sanitizeList_getLast? hlen hc
  have htlen : t.length ≤ 200 := le_trans (sanitizeList_length_le_self l) hlen
  show sanitizeList t = t
  have hs : sanitizeStripped t = t := by
    unfold sanitizeStripped
    rw [replaceInvalid_fix hti, (collapseUnd_fix htd).1, pyStripChars_fix hth htl]
  unfold sanitizeList
  rw [hs, if_neg (by omega)]

/-! ## Decimal rendering

`decRepr n` is the list of decimal digit characters of `n`, used both to
model Python's `f"{counter}"` interpolation and `strftime` padding.  It is
proved below to agree with Lean's own `Nat.repr`. -/

def decRepr (n : Nat) : List Char :=
  if n < 10 then [Nat.digitChar n]
  else decRepr (n / 10) ++ [Nat.digitChar (n % 10)]
termination_by n
decreasing_by exact Nat.div_lt_self (by omega) (by omega)

/-- Zero-padded decimal rendering, as in `strftime('%Y-%m-%d')`.  Uses
`Nat.repr` (proved below to agree with `decRepr`) so that it evaluates by
kernel reduction. -/
def padDec (width n : Nat) : List Char :=
  List.replicate (width - (Nat.repr n).data.length) '0' ++ (Nat.repr n).data

/-! ## The pattern strategy (`generate_new_name_from_content`)

```python
invoice_patterns = [
    (r'(?:invoice|inv)\s*[#:]?\s*([A-Za-z0-9-]+)', 'Invoice'),
    (r'(?:order|po)\s*[#:]?\s*([A-Za-z0-9-]+)', 'Order'),
    (r'Ref[#:]?\s*([A-Za-z0-9-]+)', 'Ref')
]
```
searched with `re.IGNORECASE`.  The matchers below implement Python's
leftmost backtracking search for exactly these patterns: alternation tries
alternatives left to right, greedy pieces backtrack. -/

/-- Case-insensitive literal match at the front of the text (the pattern
literal is given lowercase); returns the remaining text. -/
def matchCI : List Char → List Char → Option (List Char)
  | [], rest => some rest
  | _ :: _, [] => none
  | a :: as, c :: cs => if c.toLower == a then matchCI as cs else none

/-- Case-sensitive literal match at the front of the text. -/
def matchLit : List Char → List Char → Option (List Char)
  | [], rest => some rest
  | _ :: _, [] => none
  | a :: as, c :: cs => if c == a then matchLit as cs else none

/-- The part `\s*[#:]?\s*([A-Za-z0-9-]+)` after an invoice/order label
(`wsFlag` is false for the `Ref` pattern, which has no first `\s*`).
Greedy matching is deterministic here: every backtracking alternative
fails whenever the greedy path fails, because `\s`, `[#:]` and
`[A-Za-z0-9-]` are pairwise disjoint classes. -/
def invoiceTail (wsFlag : Bool) (t : List Char) : Option (List Char) :=
  let t1 := if wsFlag then t.dropWhile pyIsSpace else t
  let t2 := match t1 with
    | c :: cs => if c == '#' || c == ':' then cs else t1
    | [] => t1
  let t3 := t2.dropWhile pyIsSpace
  match t3.takeWhile isIdentChar with
  | [] => none
  | g => some g

/-- Try each label alternative in order at the current position; on a label
match whose continuation fails, backtrack to the next alternative. -/
def tryLabels (labels : List (List Char)) (wsFlag : Bool) (s : List Char) :
    Option (List Char) :=
  match labels with
  | [] => none
  | lab :: labs =>
    match matchCI lab s with
    | some t =>
      match invoiceTail wsFlag t with
      | some g => some g
      | none => tryLabels labs wsFlag s
    | none => tryLabels labs wsFlag s

/-- Model of `re.search`: try the pattern at each position, leftmost first. -/
def searchInvoiceFrom (labels : List (List Char)) (wsFlag : Bool) :
    List Char → Option (List Char)
  | [] => none
  | s@(_ :: rest) =>
    match tryLabels labels wsFlag s with
    | some g => some g
    | none => searchInvoiceFrom labels wsFlag rest

/-- One iteration of the invoice-pattern loop: search, then accept the
captured identifier only if it is longer than 3 characters and is not a
bare 4-digit year (`re.fullmatch(r'\d{4}', part)`). -/
def invoicePatternStep (labels : List (List Char)) (wsFlag : Bool)
    (pre : List Char) (text : List Char) : Option (List Char) :=
  match searchInvoiceFrom labels wsFlag text with
  | none => none
  | some g =>
    let part := pyStripWs g
    if decide (3 < part.length) && !(part.length == 4 && part.all isAsciiDigit)
    then some (pre ++ '-' :: part) else none

/-- The invoice/order/reference loop with its early `break` on the first
accepted identifier (a match that fails the length test does not break). -/
def invoicePart (text : List Char) : Option (List Char) :=
  match invoicePatternStep ["invoice".data, "inv".data] true "Invoice".data text with
  | some p => some p
  | none =>
    match invoicePatternStep ["order".data, "po".data] true "Order".data text with
    | some p => some p
    | none => invoicePatternStep ["ref".data] false "Ref".data text

/-! ### Date patterns

```python
date_patterns = [
    r'\b(\d{4}[-./]\d{1,2}[-./]\d{1,2})\b',
    r'\b(\d{1,2}[-./]\d{1,2}[-./]\d{2,4})\b',
    r'\b(Jan(?:uary)?|...|Dec(?:ember)?)\s+\d{1,2},\s+\d{4}\b'
]
```
searched without flags (case-sensitive). -/

def isDateSep (c : Char) : Bool :=
  c == '-' || c == '.' || c == '/'

/-- Word boundary before the match.  The first matched character is always
a word character (digit or letter), so `\b` holds iff the previous
character is absent or not a word character. -/
def boundaryBefore : Option Char → Bool
  | none => true
  | some p => !isWordChar p

/-- Word boundary after the match.  The last matched character is always a
word character, so `\b` holds iff the next character is absent or not a
word character. -/
def boundaryAfter : List Char → Bool
  | [] => true
  | c :: _ => !isWordChar c

/-- Exactly `n` digits from the front. -/
def takeExactDigits : Nat → List Char → Option (List Char × List Char)
  | 0, s => some ([], s)
  | _ + 1, [] => none
  | n + 1, c :: cs =>
    if isAsciiDigit c then
      match takeExactDigits n cs with
      | some (g, r) => some (c :: g, r)
      | none => none
    else none

/-- A greedy counted digit repetition (`\d{1,2}`, `\d{2,4}`, `\d{4}`):
try the digit counts in the given (descending) order, backtracking into
the continuation. -/
def tryDigitCounts (ns : List Nat) (s : List Char)
    (k : List Char → List Char → Option (List Char)) : Option (List Char) :=
  match ns with
  | [] => none
  | n :: rest =>
    match takeExactDigits n s with
    | some (g, r) =>
      match k g r with
      | some x => some x
      | none => tryDigitCounts rest s k
    | none => tryDigitCounts rest s k

/-- Pattern `\b(\d{4}[-./]\d{1,2}[-./]\d{1,2})\b` at one position. -/
def matchDate1At (prev : Option Char) (s : List Char) : Option (List Char) :=
  if boundaryBefore prev then
    tryDigitCounts [4] s (fun y s1 =>
      match s1 with
      | sep1 :: s2 =>
        if isDateSep sep1 then
          tryDigitCounts [2, 1] s2 (fun m s3 =>
            match s3 with
            | sep2 :: s4 =>
              if isDateSep sep2 then
                tryDigitCounts [2, 1] s4 (fun d s5 =>
                  if boundaryAfter s5 then some (y ++ sep1 :: m ++ sep2 :: d)
                  else none)
              else none
            | [] => none)
        else none
      | [] => none)
  else none

/-- Pattern `\b(\d{1,2}[-./]\d{1,2}[-./]\d{2,4})\b` at one position. -/
def matchDate2At (prev : Option Char) (s : List Char) : Option (List Char) :=
  if boundaryBefore prev then
    tryDigitCounts [2, 1] s (fun m1 s1 =>
      match s1 with
      | sep1 :: s2 =>
        if isDateSep sep1 then
          tryDigitCounts [2, 1] s2 (fun m2 s3 =>
            match s3 with
            | sep2 :: s4 =>
              if isDateSep sep2 then
                tryDigitCounts [4, 3, 2] s4 (fun y s5 =>
                  if boundaryAfter s5 then some (m1 ++ sep1 :: m2 ++ sep2 :: y)
                  else none)
              else none
            | [] => none)
        else none
      | [] => none)
  else none

/-- The month alternation, flattened in the regex's backtracking order:
each `Xxx(?:yyy)?` tries the long form first. -/
def monthForms : List (List Char) :=
  ["January".data, "Jan".data, "February".data, "Feb".data,
   "March".data, "Mar".data, "April".data, "Apr".data, "May".data,
   "June".data, "Jun".data, "July".data, "Jul".data,
   "August".data, "Aug".data, "September".data, "Sep".data,
   "October".data, "Oct".data, "November".data, "Nov".data,
   "December".data, "Dec".data]

/-- Pattern `\s+\d{1,2},\s+\d{4}\b` after the month name; returns the consumed
characters. -/
def date3Tail (s : List Char) : Option (List Char) :=
  if (s.takeWhile pyIsSpace).isEmpty then none
  else
    tryDigitCounts [2, 1] (s.dropWhile pyIsSpace) (fun day s2 =>
      match s2 with
      | ',' :: s3 =>
        if (s3.takeWhile pyIsSpace).isEmpty then none
        else
          tryDigitCounts [4] (s3.dropWhile pyIsSpace) (fun y s5 =>
            if boundaryAfter s5 then
              some (s.takeWhile pyIsSpace ++ day ++
                ',' :: (s3.takeWhile pyIsSpace ++ y))
            else none)
      | _ => none)

/-- Month-pattern alternation at one position; returns
`(group 1, group 0)` = (month name, whole match). -/
def tryMonthForms : List (List Char) → List Char → Option (List Char × List Char)
  | [], _ => none
  | f :: fs, s =>
    match matchLit f s with
    | some rest =>
      match date3Tail rest with
      | some tail => some (f, f ++ tail)
      | none => tryMonthForms fs s
    | none => tryMonthForms fs s

def matchDate3At (prev : Option Char) (s : List Char) :
    Option (List Char × List Char) :=
  if boundaryBefore prev then tryMonthForms monthForms s else none

def searchDate1 : Option Char → List Char → Option (List Char)
  | _, [] => none
  | prev, c :: rest =>
    match matchDate1At prev (c :: rest) with
    | some g => some g
    | none => searchDate1 (some c) rest

def searchDate2 : Option Char → List Char → Option (List Char)
  | _, [] => none
  | prev, c :: rest =>
    match matchDate2At prev (c :: rest) with
    | some g => some g
    | none => searchDate2 (some c) rest

def searchDate3 : Option Char → List Char → Option (List Char × List Char)
  | _, [] => none
  | prev, c :: rest =>
    match matchDate3At prev (c :: rest) with
    | some g => some g
    | none => searchDate3 (some c) rest

/-! ### `datetime.strptime` / `strftime` model

Each strptime model accepts exactly the strings the corresponding CPython
format accepts (the directive regexes `%Y = \d{4}`, `%m`/`%d` = one or two
digits with a valid value, `%B` = a full month name, case-insensitive),
requires the whole string to be consumed, and validates the date the way
the `datetime` constructor does. -/

def parseNat (l : List Char) : Nat :=
  l.foldl (fun a c => a * 10 + (c.toNat - 48)) 0

def isLeapYear (y : Nat) : Bool :=
  (y % 4 == 0 && y % 100 != 0) || y % 400 == 0

def daysInMonth (y m : Nat) : Nat :=
  if m == 2 then (if isLeapYear y then 29 else 28)
  else if m == 4 || m == 6 || m == 9 || m == 11 then 30
  else 31

def validDate (y m d : Nat) : Bool :=
  decide (1 ≤ y) && decide (y ≤ 9999) && decide (1 ≤ m) && decide (m ≤ 12) &&
  decide (1 ≤ d) && decide (d ≤ daysInMonth y m)

/-- A `%m` or `%d` field: one or two digits. -/
def isTwoDigitField (l : List Char) : Bool :=
  (l.length == 1 || l.length == 2) && l.all isAsciiDigit

/-- Model of `datetime.strptime(s, '%Y-%m-%d')`. -/
def strptimeYmd (g : List Char) : Option (Nat × Nat × Nat) :=
  match g.splitOn '-' with
  | [ys, ms, ds] =>
    if (ys.length == 4 && ys.all isAsciiDigit) && isTwoDigitField ms &&
        isTwoDigitField ds then
      if validDate (parseNat ys) (parseNat ms) (parseNat ds) then
        some (parseNat ys, parseNat ms, parseNat ds)
      else none
    else none
  | _ => none

/-- Model of `datetime.strptime(s, '%m-%d-%Y')`. -/
def strptimeMdY (g : List Char) : Option (Nat × Nat × Nat) :=
  match g.splitOn '-' with
  | [ms, ds, ys] =>
    if (ys.length == 4 && ys.all isAsciiDigit) && isTwoDigitField ms &&
        isTwoDigitField ds then
      if validDate (parseNat ys) (parseNat ms) (parseNat ds) then
        some (parseNat ys, parseNat ms, parseNat ds)
      else none
    else none
  | _ => none

/-- Model of `datetime.strptime(s, '%d-%m-%Y')`. -/
def strptimeDmY (g : List Char) : Option (Nat × Nat × Nat) :=
  match g.splitOn '-' with
  | [ds, ms, ys] =>
    if (ys.length == 4 && ys.all isAsciiDigit) && isTwoDigitField ms &&
        isTwoDigitField ds then
      if validDate (parseNat ys) (parseNat ms) (parseNat ds) then
        some (parseNat ys, parseNat ms, parseNat ds)
      else none
    else none
  | _ => none

def fullMonthNames : List (List Char × Nat) :=
  [("january".data, 1), ("february".data, 2), ("march".data, 3),
   ("april".data, 4), ("may".data, 5), ("june".data, 6), ("july".data, 7),
   ("august".data, 8), ("september".data, 9), ("october".data, 10),
   ("november".data, 11), ("december".data, 12)]

/-- After the month name of `%B %d, %Y`: `\s+`, day, `,`, `\s+`, 4-digit
year, end of string. -/
def strptimeBdYTail (m : Nat) (rest : List Char) : Option (Nat × Nat × Nat) :=
  if (rest.takeWhile pyIsSpace).isEmpty then none
  else
    match (rest.dropWhile pyIsSpace).takeWhile isAsciiDigit,
        (rest.dropWhile pyIsSpace).dropWhile isAsciiDigit with
    | ds, ',' :: s3 =>
      if isTwoDigitField ds then
        if (s3.takeWhile pyIsSpace).isEmpty then none
        else
          match (s3.dropWhile pyIsSpace) with
          | ys =>
            if (ys.length == 4 && ys.all isAsciiDigit) then
              if validDate (parseNat ys) m (parseNat ds) then
                some (parseNat ys, m, parseNat ds)
              else none
            else none
      else none
    | _, _ => none

/-- Model of `datetime.strptime(s, '%B %d, %Y')`. -/
def strptimeBdY (g : List Char) : Option (Nat × Nat × Nat) :=
  (fullMonthNames.filterMap (fun nm =>
    match matchCI nm.1 g with
    | some rest => strptimeBdYTail nm.2 rest
    | none => none)).head?

/-- Model of `dt_obj.strftime('%Y-%m-%d')`. -/
def formatYmd (ymd : Nat × Nat × Nat) : List Char :=
  padDec 4 ymd.1 ++ '-' :: (padDec 2 ymd.2.1 ++ '-' :: padDec 2 ymd.2.2)

/-- Model of `match.group(0).replace('/', '-').replace('.', '-')`. -/
def replaceSeps (l : List Char) : List Char :=
  (l.map (fun c => if c == '/' then '-' else c)).map
    (fun c => if c == '.' then '-' else c)

/-- The normalization block of the date loop, given `group(1)` and
`group(0)` of the match.  Returns the new `found_date` and whether the
loop `break`s (an exception inside the `try` sets the fallback value and
does not break). -/
def normalizeMatch (g1 g0 : List Char) : Option (List Char) × Bool :=
  if g1.contains '-' || g1.contains '.' then
    if (g1.takeWhile (fun c => c != '-')).length == 4 then
      match strptimeYmd g1 with
      | some ymd => (some (formatYmd ymd), true)
      | none => (some (replaceSeps g0), false)
    else
      match strptimeMdY g1 with
      | some ymd => (some (formatYmd ymd), true)
      | none =>
        match strptimeDmY g1 with
        | some ymd => (some (formatYmd ymd), true)
        | none => (some (replaceSeps g0), false)
  else if g0.contains ',' then
    match strptimeBdY g0 with
    | some ymd => (some (formatYmd ymd), true)
    | none => (some (replaceSeps g0), false)
  else (some (replaceSeps g0), true)

/-- Date loop, continued at pattern 3. -/
def extractDateP3 (found : Option (List Char)) (text : List Char) :
    Option (List Char) :=
  match searchDate3 none text with
  | some g => (normalizeMatch g.1 g.2).1
  | none => found

/-- Date loop, continued at pattern 2. -/
def extractDateP2 (found : Option (List Char)) (text : List Char) :
    Option (List Char) :=
  match searchDate2 none text with
  | some g =>
    match normalizeMatch g g with
    | (f, true) => f
    | (f, false) => extractDateP3 f text
  | none => extractDateP3 found text

/-- The `found_date` computed by the date loop of
`generate_new_name_from_content`. -/
def extractDate (text : List Char) : Option (List Char) :=
  match searchDate1 none text with
  | some g =>
    match normalizeMatch g g with
    | (f, true) => f
    | (f, false) => extractDateP2 f text
  | none => extractDateP2 none text

/-! ### Assembling the new name -/

/-- The invoice and date parts, in order. -/
def patternParts (text : List Char) : List (List Char) :=
  (match invoicePart text with | some p => [p] | none => []) ++
  (match extractDate text with | some d => [d] | none => [])

/-- Model of `text_content.strip().split('\n')[0]`. -/
def firstLineOf (text : List Char) : List Char :=
  (pyStripWs text).takeWhile (fun c => c != '\n')

/-- Model of `first_line[:50].strip()`. -/
def genericTitleOf (text : List Char) : List Char :=
  pyStripWs ((firstLineOf text).take 50)

/-- Model of `sanitize_filename("_".join(new_name_parts).replace(' ', '_'))`. -/
def finishName (parts : List (List Char)) : String :=
  sanitize_filename
    ⟨(List.intercalate ['_'] parts).map (fun c => if c == ' ' then '_' else c)⟩

def generate_new_name_from_content (text : String) : Option String :=
  if text.data.isEmpty then none
  else if (patternParts text.data).isEmpty then
    if (firstLineOf text.data).isEmpty then none
    else if (genericTitleOf text.data).isEmpty then some (finishName [])
    else some (finishName [genericTitleOf text.data])
  else some (finishName (patternParts text.data))

/-! ## `get_last_line` (renamepdf.py) -/

/-- Line-break characters of Python's `str.splitlines`. -/
def isLineBreak (c : Char) : Bool :=
  c == '\n' || c == '\r' || c == '\x0b' || c == '\x0c' || c == '\x1c' ||
  c == '\x1d' || c == '\x1e' || c == '\x85' || c == '\u2028' || c == '\u2029'

/-- Model of `str.splitlines`, with `\r\n` as a single break and no trailing empty
line. -/
def pySplitlinesGo : List Char → List Char → List (List Char)
  | cur, [] => if cur.isEmpty then [] else [cur.reverse]
  | cur, '\r' :: '\n' :: rest => cur.reverse :: pySplitlinesGo [] rest
  | cur, c :: rest =>
    if isLineBreak c then cur.reverse :: pySplitlinesGo [] rest
    else pySplitlinesGo (c :: cur) rest

def pySplitlines (l : List Char) : List (List Char) :=
  pySplitlinesGo [] l

def get_last_line (text : String) : Option String :=
  match (((pySplitlines text.data).map pyStripWs).filter
      (fun l => !l.isEmpty)).getLast? with
  | none => none
  | some l => some (sanitize_filename ⟨l⟩)

/-! ## `get_title_via_chatgpt` (renamepdf.py)

The completion call is an oracle `respond`; `none` models both the missing
credential and a transport error.  The code trims the document text to its
first 4000 characters, strips the response, and sanitizes it. -/

def get_title_via_chatgpt (respond : String → Option String) (text : String) :
    Option String :=
  match respond ⟨text.data.take 4000⟩ with
  | none => none
  | some raw => some (sanitize_filename ⟨pyStripWs raw.data⟩)

/-! ## `decRepr` agrees with `Nat.repr` and is injective -/

theorem decRepr_small {n : Nat} (h : n < 10) :
    decRepr n = [Nat.digitChar n] := by
  rw [decRepr, if_pos h]

theorem decRepr_step {n : Nat} (h : ¬ n < 10) :
    decRepr n = decRepr (n / 10) ++ [Nat.digitChar (n % 10)] := by
  conv_lhs => rw [decRepr]
  rw [if_neg h]

theorem toDigitsCore_eq_decRepr (fuel : Nat) :
    ∀ (n : Nat) (ds : List Char), n < fuel →
      Nat.toDigitsCore 10 fuel n ds = decRepr n ++ ds := by
  induction fuel with
  | zero => intro n ds h; omega
  | succ f ih =>
    intro n ds h
    rw [Nat.toDigitsCore]
    by_cases h10 : n / 10 = 0
    · have hn : n < 10 := by omega
      rw [decRepr_small hn]
      simp only [h10, if_true]
      rw [Nat.mod_eq_of_lt hn]
      rfl
    · have hn : ¬ n < 10 := by
        intro hlt
        exact h10 (Nat.div_eq_of_lt hlt)
      simp only [h10, if_false]
      have hrec : n / 10 < f := by
        have : n / 10 < n := Nat.div_lt_self (by omega) (by omega)
        omega
      rw [ih (n / 10) (Nat.digitChar (n % 10) :: ds) hrec]
      rw [decRepr_step hn]
      simp [List.append_assoc]

theorem repr_data_eq_decRepr (n : Nat) : (Nat.repr n).data = decRepr n := by
  show (Nat.toDigits 10 n).asString.data = decRepr n
  rw [Nat.toDigits, toDigitsCore_eq_decRepr (n + 1) n [] (Nat.lt_succ_self n)]
  simp [List.asString]

theorem digitChar_toNat {d : Nat} (h : d < 10) :
    (Nat.digitChar d).toNat = 48 + d := by
  interval_cases d <;> rfl

theorem parseNat_append_digit (l : List Char) (c : Char) :
    parseNat (l ++ [c]) = parseNat l * 10 + (c.toNat - 48) := by
  unfold parseNat
  rw [List.foldl_append]
  rfl

theorem parseNat_decRepr (n : Nat) : parseNat (decRepr n) = n := by
  induction n using Nat.strong_induction_on with
  | _ n ih =>
    by_cases h : n < 10
    · rw [decRepr_small h]
      show parseNat ([] ++ [Nat.digitChar n]) = n
      rw [parseNat_append_digit, digitChar_toNat h]
      simp [parseNat]
    · rw [decRepr_step h]
      rw [parseNat_append_digit,
        ih (n / 10) (Nat.div_lt_self (by omega) (by omega)),
        digitChar_toNat (Nat.mod_lt _ (by omega))]
      omega

theorem decRepr_injective {a b : Nat} (h : decRepr a = decRepr b) : a = b := by
  rw [← parseNat_decRepr a, ← parseNat_decRepr b, h]

theorem repr_injective {a b : Nat} (h : Nat.repr a = Nat.repr b) : a = b := by
  apply decRepr_injective
  rw [← repr_data_eq_decRepr, ← repr_data_eq_decRepr, h]

/-! ## The collision-resolution loop

```python
new_filename = f"{new_name_base}.pdf"
new_file_path = os.path.join(folder_path, new_filename)
while os.path.exists(new_file_path) and new_file_path != old_file_path:
    new_name_base = f"{original_new_name_base}_{counter}"
    new_filename = f"{new_name_base}.pdf"
    new_file_path = os.path.join(folder_path, new_filename)
    counter += 1
```
(the loop in renamepdf.py is the same with `title` as the base).  The
filesystem is modelled as the list `fs` of existing paths;
`os.path.exists p` is `p ∈ fs`.  The loop is run with fuel
`fs.length + 1`, which the correctness theorem proves sufficient: among
`fs.length + 1` pairwise distinct candidate paths at least one is free. -/

/-- Model of `os.path.join(folder, name)` for a folder path with no trailing
separator. -/
def pyJoin (folder name : String) : String :=
  folder ++ "/" ++ name

/-- The `k`-th candidate filename: `base.pdf`, then `base_1.pdf`,
`base_2.pdf`, ... -/
def candName (base : String) (k : Nat) : String :=
  if k = 0 then base ++ ".pdf" else base ++ "_" ++ Nat.repr k ++ ".pdf"

def candPath (folder base : String) (k : Nat) : String :=
  pyJoin folder (candName base k)

theorem candName_injective (base : String) {j k : Nat}
    (h : candName base j = candName base k) : j = k := by
  unfold candName at h
  have hdata : ∀ s t : String, s = t → s.data = t.data := by
    intro s t hst; rw [hst]
  rcases Nat.eq_zero_or_pos j with hj | hj <;>
    rcases Nat.eq_zero_or_pos k with hk | hk
  · omega
  · rw [if_pos hj, if_neg (by omega)] at h
    have := hdata _ _ h
    simp only [String.data_append] at this
    rw [List.append_assoc, List.append_assoc] at this
    have h2 := List.append_cancel_left this
    simp at h2
  · rw [if_neg (by omega), if_pos hk] at h
    have := hdata _ _ h
    simp only [String.data_append] at this
    rw [List.append_assoc, List.append_assoc] at this
    have h2 := List.append_cancel_left this
    simp at h2
  · rw [if_neg (by omega), if_neg (by omega)] at h
    have := hdata _ _ h
    simp only [String.data_append] at this
    rw [List.append_assoc, List.append_assoc, List.append_assoc,
      List.append_assoc] at this
    have h2 := List.append_cancel_left (List.append_cancel_left this)
    have h3 := List.append_cancel_right h2
    apply repr_injective
    cases hr1 : Nat.repr j with
    | mk d1 =>
      cases hr2 : Nat.repr k with
      | mk d2 =>
        rw [hr1, hr2] at h3
        simp_all

theorem candPath_injective (folder base : String) {j k : Nat}
    (h : candPath folder base j = candPath folder base k) : j = k := by
  unfold candPath pyJoin at h
  have hdata : (folder ++ "/" ++ candName base j).data =
      (folder ++ "/" ++ candName base k).data := by rw [h]
  simp only [String.data_append] at hdata
  have h2 := List.append_cancel_left hdata
  apply candName_injective base
  cases he1 : candName base j with
  | mk d1 =>
    cases he2 : candName base k with
    | mk d2 =>
      rw [he1, he2] at h2
      simp_all

theorem exists_free_cand (fs : List String) (folder base : String) :
    ∃ j, j < fs.length + 1 ∧ candPath folder base j ∉ fs := by
  by_contra hcon
  push_neg at hcon
  have hinj : Function.Injective
      (fun i : Fin (fs.length + 1) => candPath folder base i.val) := by
    intro a b hab
    exact Fin.ext (candPath_injective folder base hab)
  have hsub : Finset.univ.image
      (fun i : Fin (fs.length + 1) => candPath folder base i.val) ⊆
      fs.toFinset := by
    intro x hx
    rcases Finset.mem_image.mp hx with ⟨i, _, hi⟩
    subst hi
    exact List.mem_toFinset.mpr (hcon i.val i.isLt)
  have hcard1 : (Finset.univ.image
      (fun i : Fin (fs.length + 1) => candPath folder base i.val)).card =
      fs.length + 1 := by
    rw [Finset.card_image_of_injective _ hinj, Finset.card_univ,
      Fintype.card_fin]
  have hcard2 := Finset.card_le_card hsub
  have hcard3 := List.toFinset_card_le fs
  omega

/-- The while loop, with explicit fuel and the running counter.  `k = 0`
is the initial candidate, `k ≥ 1` the suffixed ones. -/
def resolveLoop (fs : List String) (folder old base : String) :
    Nat → Nat → String
  | 0, k => candPath folder base k
  | fuel + 1, k =>
    if candPath folder base k ∈ fs ∧ candPath folder base k ≠ old then
      resolveLoop fs folder old base fuel (k + 1)
    else candPath folder base k

/-- The path the collision loop settles on. -/
def resolvePath (fs : List String) (folder old base : String) : String :=
  resolveLoop fs folder old base (fs.length + 1) 0

theorem resolveLoop_spec (fs : List String) (folder old base : String) :
    ∀ fuel k,
      (∃ j, j < fuel ∧ (candPath folder base (k + j) ∉ fs ∨
        candPath folder base (k + j) = old)) →
      ∃ j, j < fuel ∧
        resolveLoop fs folder old base fuel k = candPath folder base (k + j) ∧
        (candPath folder base (k + j) ∉ fs ∨
          candPath folder base (k + j) = old) ∧
        ∀ i < j, candPath folder base (k + i) ∈ fs ∧
          candPath folder base (k + i) ≠ old := by
  intro fuel
  induction fuel with
  | zero =>
    rintro k ⟨j, hj, _⟩
    omega
  | succ f ih =>
    rintro k ⟨j, hj, hQ⟩
    by_cases h0 : candPath folder base k ∈ fs ∧ candPath folder base k ≠ old
    · have hjne : j ≠ 0 := by
        rintro rfl
        rcases hQ with hQ | hQ
        · exact hQ (by simpa using h0.1)
        · exact h0.2 (by simpa using hQ)
      obtain ⟨j', rfl⟩ : ∃ j', j = j' + 1 := ⟨j - 1, by omega⟩
      have hQ' : candPath folder base (k + 1 + j') ∉ fs ∨
          candPath folder base (k + 1 + j') = old := by
        rw [show k + 1 + j' = k + (j' + 1) by omega]
        exact hQ
      obtain ⟨j2, hj2, heq, hQ2, hmin⟩ := ih (k + 1) ⟨j', by omega, hQ'⟩
      refine ⟨j2 + 1, by omega, ?_, ?_, ?_⟩
      · rw [resolveLoop, if_pos h0, heq]
        rw [show k + 1 + j2 = k + (j2 + 1) by omega]
      · rw [show k + (j2 + 1) = k + 1 + j2 by omega]
        exact hQ2
      · intro i hi
        cases i with
        | zero => simpa using h0
        | succ i' =>
          rw [show k + (i' + 1) = k + 1 + i' by omega]
          exact hmin i' (by omega)
    · refine ⟨0, by omega, ?_, ?_, by omega⟩
      · rw [resolveLoop, if_neg h0]
        simp
      · simp only [Nat.add_zero]
        by_cases hm : candPath folder base k ∈ fs
        · right
          by_contra hne
          exact h0 ⟨hm, hne⟩
        · left; exact hm

theorem resolvePath_spec (fs : List String) (folder old base : String) :
    ∃ j, resolvePath fs folder old base = candPath folder base j ∧
      (candPath folder base j ∉ fs ∨ candPath folder base j = old) ∧
      ∀ i < j, candPath folder base i ∈ fs ∧ candPath folder base i ≠ old := by
  obtain ⟨j0, hj0, hfree⟩ := exists_free_cand fs folder base
  obtain ⟨j, _, heq, hQ, hmin⟩ := resolveLoop_spec fs folder old base
    (fs.length + 1) 0 ⟨j0, hj0, Or.inl (by simpa using hfree)⟩
  refine ⟨j, by simpa using heq, by simpa using hQ, ?_⟩
  intro i hi
  have := hmin i hi
  simpa using this

/-! ## The folder-renaming drivers

Both drivers iterate over the directory listing, extract text, derive a
name, resolve collisions against the live filesystem and rename (or, in
dry-run mode, only report).  External effects are oracles:
`extract path` is the text `extract_text_from_pdf` returns (`none` for an
extraction error), `respond` is the completion service, and
`renameOk old new` tells whether `os.rename` succeeds.  The state records
the filesystem (list of existing paths), the three counters, and the list
of (old, new) pairs reported as renames (performed or dry-run). -/

structure RunState where
  fs : List String
  found : Nat
  renamed : Nat
  skipped : Nat
  plans : List (String × String)
deriving Repr, DecidableEq

/-- Model of `filename.lower().endswith('.pdf')` (ASCII lowering). -/
def lowerEndsWithPdf (name : String) : Bool :=
  List.isSuffixOf ".pdf".data (name.data.map Char.toLower)

/-- One iteration of the loop of `rename_pdf_files_in_folder`
(rename_pdfs.py).  An empty extracted text is passed on to
`generate_new_name_from_content`, which returns `None` for it; only
`extract = none` (the extraction-error case) is skipped directly. -/
def rename_pdf_step (extract : String → Option String)
    (renameOk : String → String → Bool) (folder : String) (dryRun : Bool)
    (st : RunState) (filename : String) : RunState :=
  if lowerEndsWithPdf filename = false then st
  else
    match extract (pyJoin folder filename) with
    | none => { st with found := st.found + 1, skipped := st.skipped + 1 }
    | some text =>
      match generate_new_name_from_content text with
      | none => { st with found := st.found + 1, skipped := st.skipped + 1 }
      | some base =>
        if resolvePath st.fs folder (pyJoin folder filename) base =
            pyJoin folder filename then
          { st with found := st.found + 1, skipped := st.skipped + 1 }
        else if dryRun then
          { st with
            found := st.found + 1
            renamed := st.renamed + 1
            plans := st.plans ++ [(pyJoin folder filename,
              resolvePath st.fs folder (pyJoin folder filename) base)] }
        else if renameOk (pyJoin folder filename)
            (resolvePath st.fs folder (pyJoin folder filename) base) then
          { st with
            fs := st.fs.erase (pyJoin folder filename) ++
              [resolvePath st.fs folder (pyJoin folder filename) base]
            found := st.found + 1
            renamed := st.renamed + 1
            plans := st.plans ++ [(pyJoin folder filename,
              resolvePath st.fs folder (pyJoin folder filename) base)] }
        else { st with found := st.found + 1, skipped := st.skipped + 1 }

def rename_pdf_run (extract : String → Option String)
    (renameOk : String → String → Bool) (folder : String) (dryRun : Bool)
    (listing : List String) (st : RunState) : RunState :=
  listing.foldl (rename_pdf_step extract renameOk folder dryRun) st

/-- Model of `rename_pdf_files_in_folder(folder_path, dry_run)` over a directory
whose `os.listdir` is `listing` and whose existing paths are `fs0`. -/
def rename_pdf_files_in_folder (extract : String → Option String)
    (renameOk : String → String → Bool) (folder : String)
    (listing : List String) (fs0 : List String) (dryRun : Bool) : RunState :=
  rename_pdf_run extract renameOk folder dryRun listing ⟨fs0, 0, 0, 0, []⟩

/-- One iteration of the loop of `rename_pdfs_in_folder` (renamepdf.py).
Here an empty extracted text is skipped directly (`if not text_content`),
an empty title is skipped (`if not title`), and a title failing
`is_valid_filename` is skipped. -/
def renamepdf_step (extract : String → Option String)
    (respond : String → Option String) (renameOk : String → String → Bool)
    (folder : String) (dryRun : Bool) (st : RunState) (filename : String) :
    RunState :=
  if lowerEndsWithPdf filename = false then st
  else
    match extract (pyJoin folder filename) with
    | none => { st with found := st.found + 1, skipped := st.skipped + 1 }
    | some text =>
      if text.data.isEmpty then
        { st with found := st.found + 1, skipped := st.skipped + 1 }
      else
        match get_title_via_chatgpt respond text with
        | none => { st with found := st.found + 1, skipped := st.skipped + 1 }
        | some title =>
          if title.data.isEmpty then
            { st with found := st.found + 1, skipped := st.skipped + 1 }
          else if is_valid_filename title = false then
            { st with found := st.found + 1, skipped := st.skipped + 1 }
          else if resolvePath st.fs folder (pyJoin folder filename) title =
              pyJoin folder filename then
            { st with found := st.found + 1, skipped := st.skipped + 1 }
          else if dryRun then
            { st with
              found := st.found + 1
              renamed := st.renamed + 1
              plans := st.plans ++ [(pyJoin folder filename,
                resolvePath st.fs folder (pyJoin folder filename) title)] }
          else if renameOk (pyJoin folder filename)
              (resolvePath st.fs folder (pyJoin folder filename) title) then
            { st with
              fs := st.fs.erase (pyJoin folder filename) ++
                [resolvePath st.fs folder (pyJoin folder filename) title]
              found := st.found + 1
              renamed := st.renamed + 1
              plans := st.plans ++ [(pyJoin folder filename,
                resolvePath st.fs folder (pyJoin folder filename) title)] }
          else { st with found := st.found + 1, skipped := st.skipped + 1 }

def renamepdf_run (extract : String → Option String)
    (respond : String → Option String) (renameOk : String → String → Bool)
    (folder : String) (dryRun : Bool) (listing : List String)
    (st : RunState) : RunState :=
  listing.foldl (renamepdf_step extract respond renameOk folder dryRun) st

/-- Model of `rename_pdfs_in_folder(folder_path, dry_run)` (renamepdf.py). -/
def rename_pdfs_in_folder (extract : String → Option String)
    (respond : String → Option String) (renameOk : String → String → Bool)
    (folder : String) (listing : List String) (fs0 : List String)
    (dryRun : Bool) : RunState :=
  renamepdf_run extract respond renameOk folder dryRun listing ⟨fs0, 0, 0, 0, []⟩

/-! ## Character-class arithmetic

Whitespace characters match no letter, digit, or month-name character;
these facts drive the behaviour of every strategy on whitespace-only
text. -/

theorem pyIsSpace_toNat {c : Char} (h : pyIsSpace c = true) :
    (8192 ≤ c.toNat ∧ c.toNat ≤ 8202) ∨ c.toNat = 32 ∨ c.toNat = 9 ∨
    c.toNat = 10 ∨ c.toNat = 13 ∨ c.toNat = 11 ∨ c.toNat = 12 ∨
    c.toNat = 28 ∨ c.toNat = 29 ∨ c.toNat = 30 ∨ c.toNat = 31 ∨
    c.toNat = 133 ∨ c.toNat = 160 ∨ c.toNat = 5760 ∨ c.toNat = 8232 ∨
    c.toNat = 8233 ∨ c.toNat = 8239 ∨ c.toNat = 8287 ∨ c.toNat = 12288 := by
  unfold pyIsSpace at h
  simp only [Bool.or_eq_true, beq_iff_eq, Bool.and_eq_true,
    decide_eq_true_eq] at h
  repeat' rcases h with h | h
  all_goals try decide
  rw [Char.le_def, Char.le_def] at h
  exact Or.inl ⟨h.1, h.2⟩

theorem isAsciiDigit_toNat {c : Char} (h : isAsciiDigit c = true) :
    48 ≤ c.toNat ∧ c.toNat ≤ 57 := by
  unfold isAsciiDigit at h
  simp only [Bool.and_eq_true, decide_eq_true_eq] at h
  rw [Char.le_def] at h
  exact ⟨h.1, h.2⟩

theorem isAsciiAlpha_toNat {c : Char} (h : isAsciiAlpha c = true) :
    (65 ≤ c.toNat ∧ c.toNat ≤ 90) ∨ (97 ≤ c.toNat ∧ c.toNat ≤ 122) := by
  unfold isAsciiAlpha at h
  simp only [Bool.or_eq_true, Bool.and_eq_true, decide_eq_true_eq] at h
  rcases h with ⟨h1, h2⟩ | ⟨h1, h2⟩
  · rw [Char.le_def] at h1 h2
    exact Or.inl ⟨h1, h2⟩
  · rw [Char.le_def] at h1 h2
    exact Or.inr ⟨h1, h2⟩

theorem ws_not_digit {c : Char} (h : pyIsSpace c = true) :
    isAsciiDigit c = false := by
  by_contra hcon
  rw [Bool.not_eq_false] at hcon
  have h1 := pyIsSpace_toNat h
  have h2 := isAsciiDigit_toNat hcon
  omega

theorem ws_toLower {c : Char} (h : pyIsSpace c = true) : c.toLower = c := by
  have h1 := pyIsSpace_toNat h
  show (if c.toNat ≥ 65 ∧ c.toNat ≤ 90 then Char.ofNat (c.toNat + 32) else c) = c
  rw [if_neg (by omega)]

theorem ws_toLower_ne_alpha {c a : Char} (h : pyIsSpace c = true)
    (ha : isAsciiAlpha a = true) : (c.toLower == a) = false := by
  rw [ws_toLower h]
  apply beq_eq_false_iff_ne.mpr
  intro hceq
  have h1 := pyIsSpace_toNat h
  have h2 := isAsciiAlpha_toNat ha
  rw [← hceq] at h2
  omega

theorem ws_ne_alpha {c a : Char} (h : pyIsSpace c = true)
    (ha : isAsciiAlpha a = true) : (c == a) = false := by
  apply beq_eq_false_iff_ne.mpr
  intro hceq
  have h1 := pyIsSpace_toNat h
  have h2 := isAsciiAlpha_toNat ha
  rw [← hceq] at h2
  omega

/-! ## Behaviour of the strategies on whitespace-only text -/

/-- The first character of each regex label/month alternative is a
letter. -/
def headIsAlpha : List Char → Bool
  | [] => false
  | a :: _ => isAsciiAlpha a

theorem matchCI_ws_none {a : Char} {as s : List Char}
    (ha : isAsciiAlpha a = true) (hs : s.all pyIsSpace = true) :
    matchCI (a :: as) s = none := by
  cases s with
  | nil => rfl
  | cons c cs =>
    have hc : pyIsSpace c = true := by
      rw [List.all_cons, Bool.and_eq_true] at hs
      exact hs.1
    unfold matchCI
    rw [ws_toLower_ne_alpha hc ha]
    simp

theorem tryLabels_ws_none {labels : List (List Char)}
    (hlab : labels.all headIsAlpha = true)
    (wsFlag : Bool) {s : List Char} (hs : s.all pyIsSpace = true) :
    tryLabels labels wsFlag s = none := by
  induction labels with
  | nil => rfl
  | cons lab labs ih =>
    rw [List.all_cons, Bool.and_eq_true] at hlab
    cases lab with
    | nil => cases hlab.1
    | cons a as =>
      unfold tryLabels
      rw [matchCI_ws_none hlab.1 hs]
      exact ih hlab.2

theorem searchInvoiceFrom_ws_none {labels : List (List Char)}
    (hlab : labels.all headIsAlpha = true)
    (wsFlag : Bool) : ∀ {s : List Char}, s.all pyIsSpace = true →
      searchInvoiceFrom labels wsFlag s = none := by
  intro s
  induction s with
  | nil => intro _; rfl
  | cons c cs ih =>
    intro hs
    rw [List.all_cons, Bool.and_eq_true] at hs
    unfold searchInvoiceFrom
    rw [tryLabels_ws_none hlab wsFlag (by rw [List.all_cons]; simp [hs.1, hs.2])]
    exact ih hs.2

theorem invoicePart_ws_none {l : List Char} (hs : l.all pyIsSpace = true) :
    invoicePart l = none := by
  have h1 : searchInvoiceFrom ["invoice".data, "inv".data] true l = none :=
    searchInvoiceFrom_ws_none (by decide) true hs
  have h2 : searchInvoiceFrom ["order".data, "po".data] true l = none :=
    searchInvoiceFrom_ws_none (by decide) true hs
  have h3 : searchInvoiceFrom ["ref".data] false l = none :=
    searchInvoiceFrom_ws_none (by decide) false hs
  unfold invoicePart invoicePatternStep
  rw [h1, h2, h3]

theorem takeExactDigits_ws_none {n : Nat} {c : Char} {cs : List Char}
    (hc : pyIsSpace c = true) : takeExactDigits (n + 1) (c :: cs) = none := by
  unfold takeExactDigits
  rw [ws_not_digit hc]
  simp

theorem matchDate1At_ws_none {prev : Option Char} {c : Char} {cs : List Char}
    (hc : pyIsSpace c = true) : matchDate1At prev (c :: cs) = none := by
  unfold matchDate1At
  split
  · unfold tryDigitCounts
    rw [show (4 : Nat) = 3 + 1 from rfl, takeExactDigits_ws_none hc]
    rfl
  · rfl

theorem matchDate2At_ws_none {prev : Option Char} {c : Char} {cs : List Char}
    (hc : pyIsSpace c = true) : matchDate2At prev (c :: cs) = none := by
  unfold matchDate2At
  split
  · unfold tryDigitCounts
    rw [show (2 : Nat) = 1 + 1 from rfl, takeExactDigits_ws_none hc]
    unfold tryDigitCounts
    rw [show (1 : Nat) = 0 + 1 from rfl, takeExactDigits_ws_none hc]
    rfl
  · rfl

theorem tryMonthForms_ws_none {forms : List (List Char)}
    (hf : forms.all headIsAlpha = true)
    {c : Char} {cs : List Char} (hc : pyIsSpace c = true) :
    tryMonthForms forms (c :: cs) = none := by
  induction forms with
  | nil => rfl
  | cons f fs ih =>
    rw [List.all_cons, Bool.and_eq_true] at hf
    cases f with
    | nil => cases hf.1
    | cons a as =>
      unfold tryMonthForms
      unfold matchLit
      rw [ws_ne_alpha hc hf.1]
      simp only [Bool.false_eq_true, if_false]
      exact ih hf.2

theorem matchDate3At_ws_none {prev : Option Char} {c : Char} {cs : List Char}
    (hc : pyIsSpace c = true) : matchDate3At prev (c :: cs) = none := by
  unfold matchDate3At
  split
  · exact tryMonthForms_ws_none (by decide) hc
  · rfl

theorem searchDate1_ws_none : ∀ {s : List Char} {prev : Option Char},
    s.all pyIsSpace = true → searchDate1 prev s = none := by
  intro s
  induction s with
  | nil => intro _ _; rfl
  | cons c cs ih =>
    intro prev hs
    rw [List.all_cons, Bool.and_eq_true] at hs
    unfold searchDate1
    rw [matchDate1At_ws_none hs.1]
    exact ih hs.2

theorem searchDate2_ws_none : ∀ {s : List Char} {prev : Option Char},
    s.all pyIsSpace = true → searchDate2 prev s = none := by
  intro s
  induction s with
  | nil => intro _ _; rfl
  | cons c cs ih =>
    intro prev hs
    rw [List.all_cons, Bool.and_eq_true] at hs
    unfold searchDate2
    rw [matchDate2At_ws_none hs.1]
    exact ih hs.2

theorem searchDate3_ws_none : ∀ {s : List Char} {prev : Option Char},
    s.all pyIsSpace = true → searchDate3 prev s = none := by
  intro s
  induction s with
  | nil => intro _ _; rfl
  | cons c cs ih =>
    intro prev hs
    rw [List.all_cons, Bool.and_eq_true] at hs
    unfold searchDate3
    rw [matchDate3At_ws_none hs.1]
    exact ih hs.2

theorem extractDate_ws_none {l : List Char} (hs : l.all pyIsSpace = true) :
    extractDate l = none := by
  unfold extractDate extractDateP2 extractDateP3
  rw [searchDate1_ws_none hs, searchDate2_ws_none hs, searchDate3_ws_none hs]

theorem pyStripWs_nil_of_all {l : List Char} (hs : l.all pyIsSpace = true) :
    pyStripWs l = [] := by
  unfold pyStripWs pyStripChars
  rw [List.dropWhile_eq_nil_iff.mpr (by
    intro x hx
    exact List.all_eq_true.mp hs x hx)]
  rfl

theorem pyStripWs_ne_nil {l : List Char} (hs : ¬ l.all pyIsSpace = true) :
    pyStripWs l ≠ [] := by
  intro hnil
  apply hs
  unfold pyStripWs pyStripChars dropEndWhile at hnil
  rw [List.reverse_eq_nil_iff] at hnil
  rw [List.dropWhile_eq_nil_iff] at hnil
  have hall : ∀ x ∈ l.dropWhile pyIsSpace, pyIsSpace x = true := by
    intro x hx
    exact hnil x ((List.mem_reverse).mpr hx)
  rcases he : l.dropWhile pyIsSpace with _ | ⟨c, cs⟩
  · rw [List.all_eq_true]
    intro x hx
    by_contra hxw
    have : l.dropWhile pyIsSpace = [] := he
    rw [List.dropWhile_eq_nil_iff] at this
    exact hxw (this x hx)
  · have hc := head?_dropWhile_false (p := pyIsSpace) (l := l)
      (by rw [he]; rfl)
    have := hall c (by rw [he]; exact List.mem_cons_self c cs)
    rw [this] at hc
    cases hc

/-- Key fact for C10: `generate_new_name_from_content` returns `None` exactly on
empty-or-whitespace input. -/
theorem generate_eq_none_iff (text : String) :
    generate_new_name_from_content text = none ↔
      text.data.all pyIsSpace = true := by
  constructor
  · intro h
    by_contra hws
    have hne : text.data.isEmpty = false := by
      rcases hd : text.data with _ | ⟨c, cs⟩
      · exfalso
        apply hws
        rw [hd]
        rfl
      · rfl
    unfold generate_new_name_from_content at h
    rw [hne] at h
    simp only [Bool.false_eq_true, if_false] at h
    by_cases hp : (patternParts text.data).isEmpty = true
    · rw [if_pos hp] at h
      have hstrip := pyStripWs_ne_nil (l := text.data) (by simpa using hws)
      rcases hsd : pyStripWs text.data with _ | ⟨c, cs⟩
      · exact hstrip hsd
      · have hcw : pyIsSpace c = false :=
          pyStripChars_head?_false (p := pyIsSpace) (l := text.data)
            (by unfold pyStripWs at hsd; rw [hsd]; rfl)
        have hcn : (c != '\n') = true := by
          have : c ≠ '\n' := by
            intro hceq
            rw [hceq] at hcw
            cases hcw
          simpa using this
        have hfl : firstLineOf text.data =
            c :: cs.takeWhile (fun x => x != '\n') := by
          unfold firstLineOf
          rw [hsd, List.takeWhile_cons, hcn]
          rfl
        rw [hfl] at h
        simp only [List.isEmpty_cons, Bool.false_eq_true, if_false] at h
        split at h <;> cases h
    · rw [if_neg hp] at h
      cases h
  · intro hs
    unfold generate_new_name_from_content
    by_cases hd : text.data.isEmpty = true
    · rw [hd]
      rfl
    · rw [Bool.not_eq_true] at hd
      rw [hd]
      simp only [Bool.false_eq_true, if_false]
      have hparts : (patternParts text.data).isEmpty = true := by
        unfold patternParts
        rw [invoicePart_ws_none hs, extractDate_ws_none hs]
        rfl
      rw [if_pos hparts]
      have hfl : firstLineOf text.data = [] := by
        unfold firstLineOf
        rw [pyStripWs_nil_of_all hs]
        rfl
      rw [hfl]
      rfl

/-! ## Frame lemmas for the drivers -/

theorem resolvePath_free_or_old (fs : List String) (folder old base : String) :
    resolvePath fs folder old base = old ∨
      resolvePath fs folder old base ∉ fs := by
  obtain ⟨j, heq, hQ, _⟩ := resolvePath_spec fs folder old base
  rw [heq]
  tauto

theorem rename_pdf_step_dry_fs (extract : String → Option String)
    (renameOk : String → String → Bool) (folder : String) (st : RunState)
    (f : String) :
    (rename_pdf_step extract renameOk folder true st f).fs = st.fs := by
  unfold rename_pdf_step
  repeat' split
  all_goals first | rfl | simp_all

theorem renamepdf_step_dry_fs (extract respond : String → Option String)
    (renameOk : String → String → Bool) (folder : String) (st : RunState)
    (f : String) :
    (renamepdf_step extract respond renameOk folder true st f).fs = st.fs := by
  unfold renamepdf_step
  repeat' split
  all_goals first | rfl | simp_all

theorem rename_pdf_run_dry_fs (extract : String → Option String)
    (renameOk : String → String → Bool) (folder : String) :
    ∀ (listing : List String) (st : RunState),
      (rename_pdf_run extract renameOk folder true listing st).fs = st.fs := by
  intro listing
  induction listing with
  | nil => intro st; rfl
  | cons a t ih =>
    intro st
    show (rename_pdf_run extract renameOk folder true t
      (rename_pdf_step extract renameOk folder true st a)).fs = st.fs
    rw [ih, rename_pdf_step_dry_fs]

theorem renamepdf_run_dry_fs (extract respond : String → Option String)
    (renameOk : String → String → Bool) (folder : String) :
    ∀ (listing : List String) (st : RunState),
      (renamepdf_run extract respond renameOk folder true listing st).fs =
        st.fs := by
  intro listing
  induction listing with
  | nil => intro st; rfl
  | cons a t ih =>
    intro st
    show (renamepdf_run extract respond renameOk folder true t
      (renamepdf_step extract respond renameOk folder true st a)).fs = st.fs
    rw [ih, renamepdf_step_dry_fs]

/-- A step of either driver changes the filesystem at most by removing one
path and adding one path that did not exist before. -/
theorem rename_pdf_step_frame (extract : String → Option String)
    (renameOk : String → String → Bool) (folder : String) (dryRun : Bool)
    (st : RunState) (f : String) :
    (rename_pdf_step extract renameOk folder dryRun st f).fs = st.fs ∨
    ∃ o n, n ∉ st.fs ∧
      (rename_pdf_step extract renameOk folder dryRun st f).fs =
        st.fs.erase o ++ [n] := by
  unfold rename_pdf_step
  repeat' split
  all_goals try (left; rfl)
  rename_i x base heq hne hdry hok
  right
  refine ⟨pyJoin folder f, resolvePath st.fs folder (pyJoin folder f) base,
    ?_, rfl⟩
  rcases resolvePath_free_or_old st.fs folder (pyJoin folder f) base with
    h | h
  · exact absurd h hne
  · exact h

theorem renamepdf_step_frame (extract respond : String → Option String)
    (renameOk : String → String → Bool) (folder : String) (dryRun : Bool)
    (st : RunState) (f : String) :
    (renamepdf_step extract respond renameOk folder dryRun st f).fs = st.fs ∨
    ∃ o n, n ∉ st.fs ∧
      (renamepdf_step extract respond renameOk folder dryRun st f).fs =
        st.fs.erase o ++ [n] := by
  unfold renamepdf_step
  repeat' split
  all_goals try (left; rfl)
  rename_i title heq hemp hval hne hdry hok
  right
  refine ⟨pyJoin folder f, resolvePath st.fs folder (pyJoin folder f) title,
    ?_, rfl⟩
  rcases resolvePath_free_or_old st.fs folder (pyJoin folder f) title with
    h | h
  · exact absurd h hne
  · exact h

/-! ## Every strategy output is a sanitizer output -/

/-- The four guarantees every `sanitize_filename` output enjoys
unconditionally. -/
def sanitizedOutput (t : String) : Prop :=
  (∀ c ∈ t.data, isInvalidFileChar c = false) ∧
  hasDoubleUnd t.data = false ∧
  (∀ c, t.data.head? = some c → c ≠ ' ' ∧ c ≠ '_') ∧
  t.data.length ≤ 200

theorem isStripSet_false_elim {c : Char} (h : isStripSet c = false) :
    c ≠ ' ' ∧ c ≠ '_' := by
  unfold isStripSet at h
  constructor <;> intro he <;> subst he <;> simp at h

theorem sanitizedOutput_sanitize (u : String) :
    sanitizedOutput (sanitize_filename u) := by
  refine ⟨?_, ?_, ?_, ?_⟩
  · intro c hc
    exact sanitizeList_not_invalid hc
  · exact sanitizeList_noDD u.data
  · intro c hc
    exact isStripSet_false_elim (sanitizeList_head? hc)
  · exact sanitizeList_length_le u.data

theorem generate_some_sanitize {text : String} {t : String}
    (h : generate_new_name_from_content text = some t) :
    ∃ u, t = sanitize_filename u := by
  unfold generate_new_name_from_content at h
  split at h
  · cases h
  · split at h
    · split at h
      · cases h
      · split at h
        · injection h with h
          exact ⟨_, h.symm⟩
        · injection h with h
          exact ⟨_, h.symm⟩
    · injection h with h
      exact ⟨_, h.symm⟩

theorem get_last_line_some_sanitize {text : String} {t : String}
    (h : get_last_line text = some t) : ∃ u, t = sanitize_filename u := by
  unfold get_last_line at h
  split at h
  · cases h
  · injection h with h
    exact ⟨_, h.symm⟩

theorem get_title_some_sanitize {respond : String → Option String}
    {text : String} {t : String}
    (h : get_title_via_chatgpt respond text = some t) :
    ∃ u, t = sanitize_filename u := by
  unfold get_title_via_chatgpt at h
  split at h
  · cases h
  · injection h with h
    exact ⟨_, h.symm⟩

/-! ## The claims -/

/-- C1.  The path produced by the collision loop either equals the original
file's path or does not exist in the filesystem; the loop walks the suffix
candidates `base.pdf`, `base_1.pdf`, ... in order, and every candidate
before the one returned was an existing path different from the original,
so one run never settles on (and hence never renames onto) an existing
path: a driver step either leaves the filesystem unchanged or removes one
path and adds one path that did not exist before. -/
theorem collision_loop_never_overwrites :
    ∀ (fs : List String) (folder old base : String),
      (resolvePath fs folder old base = old ∨
        resolvePath fs folder old base ∉ fs) ∧
      (∃ j, resolvePath fs folder old base = candPath folder base j ∧
        (candPath folder base j ∉ fs ∨ candPath folder base j = old) ∧
        ∀ i < j, candPath folder base i ∈ fs ∧
          candPath folder base i ≠ old) ∧
      (∀ (extract : String → Option String)
        (renameOk : String → String → Bool) (dryRun : Bool) (st : RunState)
        (f : String),
        (rename_pdf_step extract renameOk folder dryRun st f).fs = st.fs ∨
        ∃ o n, n ∉ st.fs ∧
          (rename_pdf_step extract renameOk folder dryRun st f).fs =
            st.fs.erase o ++ [n]) ∧
      (∀ (extract respond : String → Option String)
        (renameOk : String → String → Bool) (dryRun : Bool) (st : RunState)
        (f : String),
        (renamepdf_step extract respond renameOk folder dryRun st f).fs =
          st.fs ∨
        ∃ o n, n ∉ st.fs ∧
          (renamepdf_step extract respond renameOk folder dryRun st f).fs =
            st.fs.erase o ++ [n]) := by
  intro fs folder old base
  refine ⟨resolvePath_free_or_old fs folder old base,
    resolvePath_spec fs folder old base,
    fun e r d st f => rename_pdf_step_frame e r folder d st f,
    fun e rp r d st f => renamepdf_step_frame e rp r folder d st f⟩

/-- C1, witness: on a filesystem where `d/R.pdf` exists, resolving base
`R` for the distinct original `d/a.pdf` yields a path that does not
already exist. -/
theorem collision_loop_never_overwrites_witness :
    resolvePath ["d/R.pdf"] "d" "d/a.pdf" "R" ∉ ["d/R.pdf"] := by
  rcases (collision_loop_never_overwrites ["d/R.pdf"] "d" "d/a.pdf" "R").1
    with h | h
  · exact absurd h (by decide)
  · exact h

/-- C2.  With `dry_run = True`, both drivers leave the filesystem exactly
as it was, for every directory listing, extraction oracle, service oracle
and rename oracle. -/
theorem dry_run_no_mutation :
    ∀ (extract respond : String → Option String)
      (renameOk : String → String → Bool) (folder : String)
      (listing : List String) (fs0 : List String),
      (rename_pdf_files_in_folder extract renameOk folder listing fs0
        true).fs = fs0 ∧
      (rename_pdfs_in_folder extract respond renameOk folder listing fs0
        true).fs = fs0 := by
  intro extract respond renameOk folder listing fs0
  exact ⟨rename_pdf_run_dry_fs extract renameOk folder listing _,
    renamepdf_run_dry_fs extract respond renameOk folder listing _⟩

set_option maxRecDepth 8000 in
/-- C3, counterexample: sanitization is not idempotent.  On 199 `a`s
followed by `_b` (201 characters), the 200-cap truncates away the final
`b`, leaving a trailing underscore that a second pass then strips. -/
theorem sanitize_not_idempotent :
    sanitize_filename (sanitize_filename
      ⟨List.replicate 199 'a' ++ ['_', 'b']⟩) ≠
      sanitize_filename ⟨List.replicate 199 'a' ++ ['_', 'b']⟩ := by
  decide

/-- C3, amended.  Sanitization is idempotent on every input of length at
most 200 — equivalently whenever the final truncation step does not
fire. -/
theorem sanitize_idempotent_of_le_200 :
    ∀ s : String, s.data.length ≤ 200 →
      sanitize_filename (sanitize_filename s) = sanitize_filename s := by
  intro s h
  show (⟨sanitizeList (sanitizeList s.data)⟩ : String) = ⟨sanitizeList s.data⟩
  rw [sanitizeList_fix h]

/-- C3, witness. -/
theorem sanitize_idempotent_of_le_200_witness :
    ("a__b " : String).data.length ≤ 200 ∧
      sanitize_filename (sanitize_filename "a__b ") =
        sanitize_filename "a__b " :=
  ⟨by decide, sanitize_idempotent_of_le_200 "a__b " (by decide)⟩

set_option maxRecDepth 8000 in
/-- C4, counterexample: a sanitized output can end with an underscore.
On 199 `a`s followed by `_b`, the strip happens before the 200-cap, so
truncation re-exposes a trailing underscore. -/
theorem sanitize_trailing_underscore :
    (sanitize_filename ⟨List.replicate 199 'a' ++ ['_', 'b']⟩).data.getLast?
      = some '_' := by
  decide

/-- C4, amended.  Every sanitized output contains none of
`\ / : * ? " < > |`, has no two consecutive underscores, does not start
with a space or an underscore, and has length at most 200; it also does
not end with a space or an underscore provided the input has length at
most 200 (so that the final truncation does not fire). -/
theorem sanitize_output_guarantees :
    ∀ s : String,
      (∀ c ∈ (sanitize_filename s).data, isInvalidFileChar c = false) ∧
      hasDoubleUnd (sanitize_filename s).data = false ∧
      (∀ c, (sanitize_filename s).data.head? = some c →
        c ≠ ' ' ∧ c ≠ '_') ∧
      (sanitize_filename s).data.length ≤ 200 ∧
      (s.data.length ≤ 200 → ∀ c,
        (sanitize_filename s).data.getLast? = some c →
        c ≠ ' ' ∧ c ≠ '_') := by
  intro s
  refine ⟨?_, sanitizeList_noDD s.data, ?_, sanitizeList_length_le s.data, ?_⟩
  · intro c hc
    exact sanitizeList_not_invalid hc
  · intro c hc
    exact isStripSet_false_elim (sanitizeList_head? hc)
  · intro hlen c hc
    exact isStripSet_false_elim (sanitizeList_getLast? hlen hc)

/-- C4, witness. -/
theorem sanitize_output_guarantees_witness :
    (sanitize_filename "ab").data.getLast? ≠ some '_' := by
  intro hcontra
  exact ((sanitize_output_guarantees "ab").2.2.2.2 (by decide) '_' hcontra).2
    rfl

set_option maxRecDepth 8000 in
/-- C5, counterexample: the pattern strategy emits hyphens (its own
showcase output `Invoice-A1234_2023-01-02` contains `-`, which is not a
letter, digit, space or underscore), and the last-line strategy can emit a
name with a trailing underscore via truncation, so candidate names are
not confined to `[A-Za-z0-9 _]` with no trailing separator. -/
theorem candidate_name_charclass_violation :
    generate_new_name_from_content "Invoice #A1234 dated 2023-01-02" =
      some "Invoice-A1234_2023-01-02" ∧
    '-' ∈ ("Invoice-A1234_2023-01-02" : String).data ∧
    isValidNameChar '-' = false ∧
    get_last_line ⟨List.replicate 199 'a' ++ ['_', 'b']⟩ =
      some ⟨List.replicate 199 'a' ++ ['_']⟩ ∧
    (⟨List.replicate 199 'a' ++ ['_']⟩ : String).data.getLast? =
      some '_' := by
  refine ⟨by decide, by decide, by decide, by decide, by decide⟩

/-- C5, amended.  Every candidate base name produced by a strategy
(pattern, last-line, or service) is a `sanitize_filename` output, hence
contains none of `\ / : * ? " < > |`, has no run of consecutive
underscores, no leading space or underscore, and is at most 200 characters
long (hyphens and other punctuation may remain, and a trailing underscore
or space can survive when the 200-cap fires); titles the service variant
accepts additionally contain only letters, digits, spaces and
underscores. -/
theorem candidate_name_guarantees :
    ∀ (text t : String),
      (generate_new_name_from_content text = some t → sanitizedOutput t) ∧
      (get_last_line text = some t → sanitizedOutput t) ∧
      (∀ respond, get_title_via_chatgpt respond text = some t →
        sanitizedOutput t) ∧
      (is_valid_filename t = true → t.data.all isValidNameChar = true) := by
  intro text t
  refine ⟨?_, ?_, ?_, ?_⟩
  · intro h
    obtain ⟨u, rfl⟩ := generate_some_sanitize h
    exact sanitizedOutput_sanitize u
  · intro h
    obtain ⟨u, rfl⟩ := get_last_line_some_sanitize h
    exact sanitizedOutput_sanitize u
  · intro respond h
    obtain ⟨u, rfl⟩ := get_title_some_sanitize h
    exact sanitizedOutput_sanitize u
  · intro h
    unfold is_valid_filename at h
    rw [Bool.and_eq_true] at h
    exact h.2

/-- C5, witness. -/
theorem candidate_name_guarantees_witness :
    get_last_line "x" = some "x" ∧ hasDoubleUnd ("x" : String).data = false :=
  ⟨by decide, ((candidate_name_guarantees "x" "x").2.1 (by decide)).2.1⟩

/-- C6.  On the exact text `"Invoice #A1234 dated 2023-01-02"` the pattern
strategy returns the base name `"Invoice-A1234_2023-01-02"`: identifier
part first, normalized date second, joined by an underscore. -/
theorem pattern_strategy_invoice_example :
    generate_new_name_from_content "Invoice #A1234 dated 2023-01-02" =
      some "Invoice-A1234_2023-01-02" := by
  decide

/-- C7.  The date loop normalizes to `YYYY-MM-DD`: on
`"Invoice due 2023-11-05"` it extracts `"2023-11-05"`, and on
`"Signed on March 3, 2024"` it converts the `Month DD, YYYY` form to
`"2024-03-03"`. -/
theorem date_normalization_examples :
    extractDate ("Invoice due 2023-11-05" : String).data =
      some ("2023-11-05" : String).data ∧
    extractDate ("Signed on March 3, 2024" : String).data =
      some ("2024-03-03" : String).data := by
  refine ⟨by decide, by decide⟩

/-- C8.  Empty extracted text yields "no name found" for all three
strategies: the pattern strategy and the last-line strategy return `None`,
and the service driver skips a file whose extracted text is empty without
consulting the title service (the oracle is arbitrary), incrementing only
the found and skipped counters. -/
theorem empty_text_no_name :
    generate_new_name_from_content "" = none ∧
    get_last_line "" = none ∧
    (∀ (extract respond : String → Option String)
      (renameOk : String → String → Bool) (folder : String) (dryRun : Bool)
      (st : RunState) (filename : String),
      lowerEndsWithPdf filename = true →
      extract (pyJoin folder filename) = some "" →
      renamepdf_step extract respond renameOk folder dryRun st filename =
        { st with found := st.found + 1, skipped := st.skipped + 1 }) := by
  refine ⟨rfl, rfl, ?_⟩
  intro extract respond renameOk folder dryRun st filename h1 h2
  unfold renamepdf_step
  rw [if_neg (by simp [h1]), h2]
  rfl

/-- C8, witness. -/
theorem empty_text_no_name_witness :
    renamepdf_step (fun _ => some "") (fun _ => some "T") (fun _ _ => true)
      "d" false ⟨["d/a.pdf"], 0, 0, 0, []⟩ "a.pdf" =
      ⟨["d/a.pdf"], 1, 0, 1, []⟩ :=
  empty_text_no_name.2.2 (fun _ => some "") (fun _ => some "T")
    (fun _ _ => true) "d" false ⟨["d/a.pdf"], 0, 0, 0, []⟩ "a.pdf"
    (by decide) rfl

/-- C9.  A generated title is accepted exactly when it fully matches
`[A-Za-z0-9 _]+` (non-empty, all characters in the class); the sanitizer
leaves a hyphen intact, `is_valid_filename` rejects it, and the driver
then skips that file — incrementing only the counters, touching nothing
else — and goes on folding over the remaining listing. -/
theorem service_validity_gate :
    (∀ s : String, is_valid_filename s = true ↔
      (s.data ≠ [] ∧ ∀ c ∈ s.data, isValidNameChar c = true)) ∧
    (sanitize_filename "a-b" = "a-b" ∧ is_valid_filename "a-b" = false) ∧
    (∀ (extract respond : String → Option String)
      (renameOk : String → String → Bool) (folder : String) (dryRun : Bool)
      (st : RunState) (filename text title : String),
      lowerEndsWithPdf filename = true →
      extract (pyJoin folder filename) = some text →
      text.data.isEmpty = false →
      get_title_via_chatgpt respond text = some title →
      title.data.isEmpty = false →
      is_valid_filename title = false →
      renamepdf_step extract respond renameOk folder dryRun st filename =
        { st with found := st.found + 1, skipped := st.skipped + 1 }) ∧
    (∀ (extract respond : String → Option String)
      (renameOk : String → String → Bool) (folder : String) (dryRun : Bool)
      (listing : List String) (st : RunState) (filename : String),
      renamepdf_run extract respond renameOk folder dryRun
        (filename :: listing) st =
      renamepdf_run extract respond renameOk folder dryRun listing
        (renamepdf_step extract respond renameOk folder dryRun st
          filename)) := by
  refine ⟨?_, ⟨by decide, by decide⟩, ?_, ?_⟩
  · intro s
    unfold is_valid_filename
    rw [Bool.and_eq_true, Bool.not_eq_true']
    constructor
    · intro ⟨h1, h2⟩
      refine ⟨by simpa using h1, ?_⟩
      intro c hc
      exact List.all_eq_true.mp h2 c hc
    · intro ⟨h1, h2⟩
      exact ⟨by simpa using h1, List.all_eq_true.mpr h2⟩
  · intro extract respond renameOk folder dryRun st filename text title
      h1 h2 h3 h4 h5 h6
    unfold renamepdf_step
    rw [if_neg (by simp [h1]), h2]
    simp only [h3, Bool.false_eq_true, if_false]
    rw [h4]
    simp only [h5, h6, Bool.false_eq_true, if_false, if_pos]
  · intro extract respond renameOk folder dryRun listing st filename
    rfl

/-- C9, witness. -/
theorem service_validity_gate_witness :
    renamepdf_step (fun _ => some "doc") (fun _ => some "A-B")
      (fun _ _ => true) "d" false ⟨["d/a.pdf"], 0, 0, 0, []⟩ "a.pdf" =
      ⟨["d/a.pdf"], 1, 0, 1, []⟩ :=
  service_validity_gate.2.2.1 (fun _ => some "doc") (fun _ => some "A-B")
    (fun _ _ => true) "d" false ⟨["d/a.pdf"], 0, 0, 0, []⟩ "a.pdf" "doc"
    "A-B" (by decide) rfl (by decide) (by decide) (by decide) (by decide)

/-- C10.  `generate_new_name_from_content` returns `None` exactly when the
text is empty or whitespace-only; on the non-whitespace input `"____"` it
instead returns the empty string, which the caller's is-`None` check lets
through, so the proposed filename becomes `".pdf"` with an empty base. -/
theorem empty_base_name_leak :
    (∀ text : String, generate_new_name_from_content text = none ↔
      text.data.all pyIsSpace = true) ∧
    generate_new_name_from_content "____" = some "" ∧
    (rename_pdf_files_in_folder (fun _ => some "____") (fun _ _ => true)
      "d" ["doc.pdf"] ["d/doc.pdf"] true).plans =
      [("d/doc.pdf", "d/.pdf")] :=
  ⟨generate_eq_none_iff, by decide, by decide⟩

/-- C10, witness. -/
theorem empty_base_name_leak_witness :
    generate_new_name_from_content " \t " = none :=
  (empty_base_name_leak.1 " \t ").mpr (by decide)

end PdfRename
